import Mathlib

/-!
Verification of the dual-queue moderation-dashboard state store
(`src/src/App.js` of GetStream/moderation-dashboard-example).

The React component keeps five pieces of state: two item collections
(`reviewQueueItems`, `reviewedItems`), two pagination cursors
(`reviewQueueCursor`, `reviewedCursor`) and one shared `isLoading` flag.
Each event handler is embedded as a pure function from the current state
(plus the adapter call's outcome, supplied as an `Except` argument) to the
new state.  JavaScript truthiness of a nullable string cursor
(`cursor ? … : …`, `if (currentCursor)`) is modelled by `jsTruthy` on
`Option String`: both `null` and the empty string are falsy.
-/

/-- A review-queue item as handled by the dashboard.  The handlers only
inspect `id`; `entity_type` is the tag shown by `formatEntityType`. -/
structure Item where
  id : String
  entity_type : String
deriving DecidableEq, Repr

/-- The component state held by `App` (`useState` hooks, lines 22-29). -/
structure AppState where
  reviewQueueItems : List Item
  reviewedItems : List Item
  reviewQueueCursor : Option String
  reviewedCursor : Option String
  isLoading : Bool
deriving DecidableEq, Repr

/-- The initial state: both collections empty, both cursors null,
not loading. -/
def initState : AppState :=
  { reviewQueueItems := []
    reviewedItems := []
    reviewQueueCursor := none
    reviewedCursor := none
    isLoading := false }

/-- JavaScript truthiness of a nullable string: `null` and `""` are falsy. -/
def jsTruthy : Option String → Bool
  | none => false
  | some s => s != ""

/-- The filter object passed to `client.moderation.queryReviewQueue`
(lines 35-39). -/
structure QueryFilter where
  entity_type : String
  reviewed : Bool
  has_text : Bool
deriving DecidableEq, Repr

/-- The pagination object passed to `queryReviewQueue` (lines 41-44). -/
structure QueryPagination where
  next : Option String
  limit : Nat
deriving DecidableEq, Repr

/-- The full argument triple of a `queryReviewQueue` call: filter,
sort list (always `[]` in the source) and pagination. -/
structure QueryRequest where
  filter : QueryFilter
  sort : List String
  pagination : QueryPagination
deriving DecidableEq, Repr

/-- A successful `queryReviewQueue` response: a page of items and an
optional continuation cursor. -/
structure QueryResponse where
  items : List Item
  next : Option String
deriving DecidableEq, Repr

/-- Everything observable about one `fetchItems` run: the request it sent,
the state in force while the adapter call was pending (after
`setIsLoading(true)`), and the state after the `finally` block. -/
structure FetchOutcome where
  request : QueryRequest
  duringCall : AppState
  final : AppState
deriving DecidableEq, Repr

/-- Model of `fetchItems(isReviewed, cursor)` (lines 31-62).  `setIsLoading(true)`;
build the fixed query; on success append to the queue's collection when a
truthy cursor was supplied, otherwise replace it, and store the response's
`next` cursor; on failure only log; `finally` clears the loading flag. -/
def fetchItems (s : AppState) (isReviewed : Bool) (cursor : Option String)
    (result : Except Unit QueryResponse) : FetchOutcome :=
  let loading : AppState := { s with isLoading := true }
  let request : QueryRequest :=
    { filter := { entity_type := "stream:chat:v1:message"
                  reviewed := isReviewed
                  has_text := true }
      sort := []
      pagination := { next := cursor, limit := 25 } }
  match result with
  | .error _ => { request := request, duringCall := loading
                  final := { loading with isLoading := false } }
  | .ok response =>
    let updated : AppState :=
      if isReviewed then
        { loading with
          reviewedItems :=
            if jsTruthy cursor then loading.reviewedItems ++ response.items
            else response.items
          reviewedCursor := response.next }
      else
        { loading with
          reviewQueueItems :=
            if jsTruthy cursor then loading.reviewQueueItems ++ response.items
            else response.items
          reviewQueueCursor := response.next }
    { request := request, duringCall := loading
      final := { updated with isLoading := false } }

/-- One `client.moderation.submitAction` call: action name, target item id
and the optional `hard_delete` flag of the `delete_message` payload. -/
structure ActionCall where
  action : String
  item_id : String
  hard_delete : Option Bool
deriving DecidableEq, Repr

/-- Model of `handleMarkReviewed(itemId)` (lines 239-251).  The submission is issued
unconditionally; only on acknowledgment does the handler look the item up
in `reviewQueueItems`, filter it out of that collection, and, when found,
prepend it to `reviewedItems`.  On error nothing is mutated. -/
def handleMarkReviewed (s : AppState) (itemId : String)
    (result : Except Unit Unit) : ActionCall × AppState :=
  let call : ActionCall :=
    { action := "mark_reviewed", item_id := itemId, hard_delete := none }
  match result with
  | .error _ => (call, s)
  | .ok _ =>
    let itemToMove := s.reviewQueueItems.find? (fun item => item.id == itemId)
    let s1 : AppState :=
      { s with reviewQueueItems :=
          s.reviewQueueItems.filter (fun item => item.id != itemId) }
    match itemToMove with
    | some item => (call, { s1 with reviewedItems := item :: s1.reviewedItems })
    | none => (call, s1)

/-- Model of `handleDelete(itemId)` (lines 253-265): submit a soft
`delete_message`; on acknowledgment filter the item out of
`reviewQueueItems`; on error nothing is mutated. -/
def handleDelete (s : AppState) (itemId : String)
    (result : Except Unit Unit) : ActionCall × AppState :=
  let call : ActionCall :=
    { action := "delete_message", item_id := itemId
      hard_delete := some false }
  match result with
  | .error _ => (call, s)
  | .ok _ =>
    (call, { s with reviewQueueItems :=
        s.reviewQueueItems.filter (fun item => item.id != itemId) })

/-- The decision core of the debounced `handleScroll` callback
(lines 78-96): which fetch, if any, a scroll evaluation issues.
`pastThreshold` abstracts the viewport test
`scrollPosition > scrollThreshold`; the returned pair is
(isReviewedTab, cursor) of the issued `fetchItems` call, `none` when no
fetch is issued.  Mirrors the early return on `isLoading` and the
truthiness test `if (currentCursor)`. -/
def handleScrollRequest (s : AppState) (activeTab : Nat)
    (pastThreshold : Bool) : Option (Bool × String) :=
  if s.isLoading then none
  else if pastThreshold then
    let isReviewedTab := activeTab == 1
    let currentCursor :=
      if isReviewedTab then s.reviewedCursor else s.reviewQueueCursor
    match currentCursor with
    | some c => if c = "" then none else some (isReviewedTab, c)
    | none => none
  else none

/-- Model of `formatEntityType(entityType)` (lines 267-278): a total map sending the
three known tags to display names and anything else to itself. -/
def formatEntityType (entityType : String) : String :=
  if entityType = "stream:chat:v1:message" then "Chat Message"
  else if entityType = "stream:feeds:v2:activity" then "Feeds Activity"
  else if entityType = "stream:feeds:v2:reaction" then "Feeds Reaction"
  else entityType

/-- A store operation together with its adapter outcome, as used to build
reachable states: a page fetch, a mark-reviewed submission, or a delete
submission. -/
inductive Op where
  | fetch (isReviewed : Bool) (cursor : Option String)
      (result : Except Unit QueryResponse)
  | mark (itemId : String) (result : Except Unit Unit)
  | del (itemId : String) (result : Except Unit Unit)

/-- Apply one store operation to the state. -/
def applyOp (s : AppState) : Op → AppState
  | .fetch isReviewed cursor result => (fetchItems s isReviewed cursor result).final
  | .mark itemId result => (handleMarkReviewed s itemId result).2
  | .del itemId result => (handleDelete s itemId result).2

/-- Run a sequence of store operations from a state. -/
def runOps (s : AppState) (ops : List Op) : AppState :=
  ops.foldl applyOp s

/-- The ids currently in the PendingReview collection. -/
def pendingIds (s : AppState) : List String :=
  s.reviewQueueItems.map Item.id

/-- The ids currently in the Reviewed collection. -/
def reviewedIds (s : AppState) : List String :=
  s.reviewedItems.map Item.id

/-- Cross-queue id uniqueness: no id occurs twice in the union of the two
collections. -/
def uniqueIds (s : AppState) : Prop :=
  (pendingIds s ++ reviewedIds s).Nodup

/-- The cursor of the queue selected by `isReviewed`, as read by
`handleScroll`. -/
def queueCursor (s : AppState) (isReviewed : Bool) : Option String :=
  if isReviewed then s.reviewedCursor else s.reviewQueueCursor

/-- The item collection of the queue selected by `isReviewed`. -/
def queueItems (s : AppState) (isReviewed : Bool) : List Item :=
  if isReviewed then s.reviewedItems else s.reviewQueueItems

/-- An event of the running dashboard after startup: a (debounced) scroll
evaluation, which performs exactly the fetch `handleScrollRequest`
issues, or one of the two action handlers.  Direct no-cursor fetches occur
only at initialization (a full reset), so they are not events here. -/
inductive UiStep where
  | scroll (activeTab : Nat) (pastThreshold : Bool)
      (result : Except Unit QueryResponse)
  | mark (itemId : String) (result : Except Unit Unit)
  | del (itemId : String) (result : Except Unit Unit)

/-- Apply one post-startup UI event to the state. -/
def applyUiStep (s : AppState) : UiStep → AppState
  | .scroll activeTab pastThreshold result =>
    match handleScrollRequest s activeTab pastThreshold with
    | some (isReviewedTab, c) => (fetchItems s isReviewedTab (some c) result).final
    | none => s
  | .mark itemId result => (handleMarkReviewed s itemId result).2
  | .del itemId result => (handleDelete s itemId result).2

/-- Run a sequence of post-startup UI events. -/
def runUiSteps (s : AppState) (steps : List UiStep) : AppState :=
  steps.foldl applyUiStep s

/-! ## Loading-flag and failure-path behaviour -/

/-- C6: every `fetchItems` run has the loading flag set while the adapter
call is pending and cleared when the run terminates, on both the success
and the failure path. -/
theorem fetchItems_loading_flag (s : AppState) (isReviewed : Bool)
    (cursor : Option String) (result : Except Unit QueryResponse) :
    (fetchItems s isReviewed cursor result).duringCall.isLoading = true ∧
    (fetchItems s isReviewed cursor result).final.isLoading = false := by
  cases result <;> cases isReviewed <;> simp [fetchItems]

/-- C3: a failed adapter call in `fetchItems`, `handleMarkReviewed` or
`handleDelete` leaves both item collections and both cursors exactly as
they were before the call. -/
theorem failed_call_no_mutation (s : AppState) (isReviewed : Bool)
    (cursor : Option String) (itemId : String) :
    ((fetchItems s isReviewed cursor (.error ())).final.reviewQueueItems
        = s.reviewQueueItems ∧
     (fetchItems s isReviewed cursor (.error ())).final.reviewedItems
        = s.reviewedItems ∧
     (fetchItems s isReviewed cursor (.error ())).final.reviewQueueCursor
        = s.reviewQueueCursor ∧
     (fetchItems s isReviewed cursor (.error ())).final.reviewedCursor
        = s.reviewedCursor) ∧
    (handleMarkReviewed s itemId (.error ())).2 = s ∧
    (handleDelete s itemId (.error ())).2 = s := by
  refine ⟨⟨rfl, rfl, rfl, rfl⟩, rfl, rfl⟩

/-- C8: every `fetchItems` call sends the fixed query arguments: the
chat-message entity tag, `reviewed` equal to the queue selector,
`has_text` true, an empty sort list, a limit of 25, and the supplied
cursor. -/
theorem fetchItems_query_arguments (s : AppState) (isReviewed : Bool)
    (cursor : Option String) (result : Except Unit QueryResponse) :
    (fetchItems s isReviewed cursor result).request.filter.entity_type
      = "stream:chat:v1:message" ∧
    (fetchItems s isReviewed cursor result).request.filter.reviewed
      = isReviewed ∧
    (fetchItems s isReviewed cursor result).request.filter.has_text = true ∧
    (fetchItems s isReviewed cursor result).request.sort = [] ∧
    (fetchItems s isReviewed cursor result).request.pagination.next
      = cursor ∧
    (fetchItems s isReviewed cursor result).request.pagination.limit = 25 := by
  cases result <;> cases isReviewed <;> simp [fetchItems]

/-! ## The entity-type display formatter -/

/-- C10: `formatEntityType` maps the three known tags to their display
names and is the identity on every other string. -/
theorem formatEntityType_total_map :
    formatEntityType "stream:chat:v1:message" = "Chat Message" ∧
    formatEntityType "stream:feeds:v2:activity" = "Feeds Activity" ∧
    formatEntityType "stream:feeds:v2:reaction" = "Feeds Reaction" ∧
    ∀ s : String, s ≠ "stream:chat:v1:message" →
      s ≠ "stream:feeds:v2:activity" → s ≠ "stream:feeds:v2:reaction" →
      formatEntityType s = s := by
  refine ⟨by decide, by decide, by decide, ?_⟩
  intro s h1 h2 h3
  simp [formatEntityType, h1, h2, h3]

/-- An unknown tag goes through `formatEntityType` unchanged. -/
theorem formatEntityType_total_map_witness :
    (("tag" : String) ≠ "stream:chat:v1:message" ∧
     ("tag" : String) ≠ "stream:feeds:v2:activity" ∧
     ("tag" : String) ≠ "stream:feeds:v2:reaction") ∧
    formatEntityType "tag" = "tag" :=
  ⟨by decide,
   formatEntityType_total_map.2.2.2 "tag" (by decide) (by decide) (by decide)⟩

/-! ## Pagination: append vs replace -/

/-- C2: a successful fetch with a (truthy) cursor appends the returned
items after the queue's existing ones; a first-page fetch (no cursor)
replaces the collection; in both cases the queue's cursor becomes the
response's `next`. -/
theorem fetchItems_append_or_replace (s : AppState) (isReviewed : Bool)
    (r : QueryResponse) :
    (∀ c : String, c ≠ "" →
      queueItems (fetchItems s isReviewed (some c) (.ok r)).final isReviewed
          = queueItems s isReviewed ++ r.items ∧
      queueCursor (fetchItems s isReviewed (some c) (.ok r)).final isReviewed
          = r.next) ∧
    (queueItems (fetchItems s isReviewed none (.ok r)).final isReviewed
        = r.items ∧
     queueCursor (fetchItems s isReviewed none (.ok r)).final isReviewed
        = r.next) := by
  constructor
  · intro c hc
    cases isReviewed <;>
      simp [fetchItems, queueItems, queueCursor, jsTruthy, hc]
  · cases isReviewed <;> simp [fetchItems, queueItems, queueCursor, jsTruthy]

/-- A continued fetch on the pending queue appends its page and stores
the new cursor. -/
theorem fetchItems_append_or_replace_witness :
    ("c1" : String) ≠ "" ∧
    (queueItems (fetchItems initState false (some "c1")
          (.ok ⟨[⟨"a", "t"⟩], some "c2"⟩)).final false
        = queueItems initState false ++ [⟨"a", "t"⟩] ∧
     queueCursor (fetchItems initState false (some "c1")
          (.ok ⟨[⟨"a", "t"⟩], some "c2"⟩)).final false = some "c2") :=
  ⟨by decide,
   (fetchItems_append_or_replace initState false
      ⟨[⟨"a", "t"⟩], some "c2"⟩).1 "c1" (by decide)⟩

/-! ## markReviewed on an absent id -/

/-- C9: `handleMarkReviewed` on an id not present in the pending
collection still issues the `mark_reviewed` submission, and a successful
call leaves the state exactly unchanged: the lookup finds nothing to
move. -/
theorem markReviewed_missing_id_noop (s : AppState) (itemId : String)
    (h : itemId ∉ pendingIds s) :
    (handleMarkReviewed s itemId (.ok ())).1 =
      { action := "mark_reviewed", item_id := itemId, hard_delete := none } ∧
    (handleMarkReviewed s itemId (.ok ())).2 = s := by
  have hmem : ∀ x ∈ s.reviewQueueItems, ¬ x.id = itemId := by
    intro x hx heq
    exact h (List.mem_map.mpr ⟨x, hx, heq⟩)
  have hfind :
      s.reviewQueueItems.find? (fun item => item.id == itemId) = none := by
    rw [List.find?_eq_none]
    intro x hx
    simpa using hmem x hx
  have hfilter :
      s.reviewQueueItems.filter (fun item => item.id != itemId)
        = s.reviewQueueItems := by
    rw [List.filter_eq_self]
    intro x hx
    simpa using hmem x hx
  constructor
  · simp [handleMarkReviewed, hfind]
  · simp [handleMarkReviewed, hfind, hfilter]

/-- Marking an id that is not in the pending queue of a concrete state
changes nothing. -/
theorem markReviewed_missing_id_noop_witness :
    ("a" ∉ pendingIds { initState with reviewQueueItems := [⟨"b", "t"⟩] }) ∧
    ((handleMarkReviewed { initState with reviewQueueItems := [⟨"b", "t"⟩] }
        "a" (.ok ())).1 =
      { action := "mark_reviewed", item_id := "a", hard_delete := none } ∧
     (handleMarkReviewed { initState with reviewQueueItems := [⟨"b", "t"⟩] }
        "a" (.ok ())).2 =
      { initState with reviewQueueItems := [⟨"b", "t"⟩] }) :=
  ⟨by decide,
   markReviewed_missing_id_noop
     { initState with reviewQueueItems := [⟨"b", "t"⟩] } "a" (by decide)⟩

/-! ## markReviewed and delete on a present id -/

/-- Filtering out one id present in a duplicate-free item list shortens it
by exactly one. -/
theorem length_filter_id_ne (l : List Item) (a : String)
    (hnd : (l.map Item.id).Nodup) (hmem : a ∈ l.map Item.id) :
    (l.filter (fun i => i.id != a)).length + 1 = l.length := by
  induction l with
  | nil => simp at hmem
  | cons b t ih =>
    simp only [List.map_cons, List.nodup_cons] at hnd
    obtain ⟨hb, ht⟩ := hnd
    rw [List.filter_cons]
    by_cases hba : b.id = a
    · subst hba
      have hall : t.filter (fun i => i.id != b.id) = t := by
        rw [List.filter_eq_self]
        intro x hx
        simp only [bne_iff_ne, ne_eq]
        intro hxe
        exact hb (List.mem_map.mpr ⟨x, hx, hxe⟩)
      simp [hall]
    · have hmem' : a ∈ t.map Item.id := by
        rcases List.mem_map.mp hmem with ⟨x, hx, hxe⟩
        rcases List.mem_cons.mp hx with rfl | hxt
        · exact absurd hxe hba
        · exact List.mem_map.mpr ⟨x, hxt, hxe⟩
      have := ih ht hmem'
      have hkeep : (b.id != a) = true := by simpa using hba
      simp only [hkeep, if_true, List.length_cons]
      omega

/-- A sample state with one pending and one reviewed item, used to
instantiate the action-handler theorems. -/
def sampleState : AppState :=
  { reviewQueueItems := [⟨"a", "ta"⟩]
    reviewedItems := [⟨"b", "tb"⟩]
    reviewQueueCursor := some "c1"
    reviewedCursor := none
    isLoading := false }

/-- C1: a successful `handleMarkReviewed` on an id present (once) in the
pending collection removes it from PendingReview, prepends that very item
to Reviewed, and keeps the total item count across both queues
unchanged. -/
theorem markReviewed_moves_item (s : AppState) (itemId : String)
    (hmem : itemId ∈ pendingIds s) (hnd : (pendingIds s).Nodup) :
    itemId ∉ pendingIds (handleMarkReviewed s itemId (.ok ())).2 ∧
    (∃ item, item ∈ s.reviewQueueItems ∧ item.id = itemId ∧
      (handleMarkReviewed s itemId (.ok ())).2.reviewedItems
        = item :: s.reviewedItems) ∧
    (handleMarkReviewed s itemId (.ok ())).2.reviewQueueItems.length +
        (handleMarkReviewed s itemId (.ok ())).2.reviewedItems.length
      = s.reviewQueueItems.length + s.reviewedItems.length := by
  obtain ⟨item0, hitem0, hid0⟩ := List.mem_map.mp hmem
  have hsome : (s.reviewQueueItems.find? (fun i => i.id == itemId)).isSome :=
    List.find?_isSome.mpr ⟨item0, hitem0, by simp [hid0]⟩
  obtain ⟨item, hfind⟩ := Option.isSome_iff_exists.mp hsome
  have hid : item.id = itemId := by simpa using List.find?_some hfind
  have hitemmem : item ∈ s.reviewQueueItems := List.mem_of_find?_eq_some hfind
  have hred : (handleMarkReviewed s itemId (.ok ())).2 =
      { s with
        reviewQueueItems :=
          s.reviewQueueItems.filter (fun i => i.id != itemId)
        reviewedItems := item :: s.reviewedItems } := by
    simp [handleMarkReviewed, hfind]
  rw [hred]
  refine ⟨?_, ⟨item, hitemmem, hid, rfl⟩, ?_⟩
  · intro hx
    obtain ⟨x, hxF, hxid⟩ := List.mem_map.mp hx
    have := (List.mem_filter.mp hxF).2
    simp only [bne_iff_ne, ne_eq] at this
    exact this hxid
  · have := length_filter_id_ne s.reviewQueueItems itemId hnd hmem
    dsimp only
    simp only [List.length_cons]
    omega

/-- Marking the single pending item of `sampleState` as reviewed moves it
to the front of the reviewed collection and preserves the total count. -/
theorem markReviewed_moves_item_witness :
    ("a" ∈ pendingIds sampleState ∧ (pendingIds sampleState).Nodup) ∧
    ("a" ∉ pendingIds (handleMarkReviewed sampleState "a" (.ok ())).2 ∧
     (∃ item, item ∈ sampleState.reviewQueueItems ∧ item.id = "a" ∧
       (handleMarkReviewed sampleState "a" (.ok ())).2.reviewedItems
         = item :: sampleState.reviewedItems) ∧
     (handleMarkReviewed sampleState "a" (.ok ())).2.reviewQueueItems.length +
         (handleMarkReviewed sampleState "a" (.ok ())).2.reviewedItems.length
       = sampleState.reviewQueueItems.length +
           sampleState.reviewedItems.length) :=
  ⟨⟨by decide, by decide⟩,
   markReviewed_moves_item sampleState "a" (by decide) (by decide)⟩

/-- C7: a successful `handleDelete` on an id present (once) in the pending
collection removes it from PendingReview, leaves Reviewed untouched, and
decreases the total item count across both queues by exactly one. -/
theorem delete_removes_item (s : AppState) (itemId : String)
    (hmem : itemId ∈ pendingIds s) (hnd : (pendingIds s).Nodup) :
    itemId ∉ pendingIds (handleDelete s itemId (.ok ())).2 ∧
    (handleDelete s itemId (.ok ())).2.reviewedItems = s.reviewedItems ∧
    (handleDelete s itemId (.ok ())).2.reviewQueueItems.length +
        (handleDelete s itemId (.ok ())).2.reviewedItems.length + 1
      = s.reviewQueueItems.length + s.reviewedItems.length := by
  have hred : (handleDelete s itemId (.ok ())).2 =
      { s with
        reviewQueueItems :=
          s.reviewQueueItems.filter (fun i => i.id != itemId) } := by
    simp [handleDelete]
  rw [hred]
  refine ⟨?_, rfl, ?_⟩
  · intro hx
    obtain ⟨x, hxF, hxid⟩ := List.mem_map.mp hx
    have := (List.mem_filter.mp hxF).2
    simp only [bne_iff_ne, ne_eq] at this
    exact this hxid
  · have := length_filter_id_ne s.reviewQueueItems itemId hnd hmem
    dsimp only
    omega

/-- Deleting the single pending item of `sampleState` empties PendingReview
and lowers the total count by one. -/
theorem delete_removes_item_witness :
    ("a" ∈ pendingIds sampleState ∧ (pendingIds sampleState).Nodup) ∧
    ("a" ∉ pendingIds (handleDelete sampleState "a" (.ok ())).2 ∧
     (handleDelete sampleState "a" (.ok ())).2.reviewedItems
       = sampleState.reviewedItems ∧
     (handleDelete sampleState "a" (.ok ())).2.reviewQueueItems.length +
         (handleDelete sampleState "a" (.ok ())).2.reviewedItems.length + 1
       = sampleState.reviewQueueItems.length +
           sampleState.reviewedItems.length) :=
  ⟨⟨by decide, by decide⟩,
   delete_removes_item sampleState "a" (by decide) (by decide)⟩

/-! ## The scroll trigger -/

/-- If a scroll evaluation issues a fetch, the loading flag was false and
the target queue's cursor held exactly the non-empty cursor passed on. -/
theorem handleScrollRequest_some (s : AppState) (tab : Nat) (past : Bool)
    (q : Bool) (c : String)
    (h : handleScrollRequest s tab past = some (q, c)) :
    s.isLoading = false ∧ queueCursor s q = some c ∧ c ≠ "" := by
  unfold handleScrollRequest at h
  by_cases hl : s.isLoading = true
  · rw [if_pos hl] at h
    cases h
  · rw [if_neg hl] at h
    by_cases hp : past = true
    · rw [if_pos hp] at h
      dsimp only at h
      rcases hcur : (if (tab == 1 : Bool) = true
          then s.reviewedCursor else s.reviewQueueCursor) with _ | c'
      · rw [hcur] at h
        cases h
      · rw [hcur] at h
        dsimp only at h
        by_cases he : c' = ""
        · rw [if_pos he] at h
          cases h
        · rw [if_neg he] at h
          have hpair := Option.some.inj h
          have hq : (tab == 1 : Bool) = q := congrArg Prod.fst hpair
          have hc : c' = c := congrArg Prod.snd hpair
          subst hq
          subst hc
          exact ⟨Bool.not_eq_true s.isLoading ▸ hl, by
            simpa [queueCursor] using hcur, he⟩
    · rw [if_neg hp] at h
      cases h

/-- Neither cursor is touched by `handleMarkReviewed`. -/
theorem handleMarkReviewed_preserves_cursors (s : AppState) (itemId : String)
    (r : Except Unit Unit) :
    ((handleMarkReviewed s itemId r).2).reviewQueueCursor
        = s.reviewQueueCursor ∧
    ((handleMarkReviewed s itemId r).2).reviewedCursor = s.reviewedCursor := by
  cases r with
  | error e => exact ⟨rfl, rfl⟩
  | ok u =>
    rcases hf : s.reviewQueueItems.find? (fun item => item.id == itemId)
      with _ | item <;> simp [handleMarkReviewed, hf]

/-- Neither cursor is touched by `handleDelete`. -/
theorem handleDelete_preserves_cursors (s : AppState) (itemId : String)
    (r : Except Unit Unit) :
    ((handleDelete s itemId r).2).reviewQueueCursor = s.reviewQueueCursor ∧
    ((handleDelete s itemId r).2).reviewedCursor = s.reviewedCursor := by
  cases r with
  | error e => exact ⟨rfl, rfl⟩
  | ok u => exact ⟨rfl, rfl⟩

/-- A fetch for one queue leaves the other queue's cursor alone. -/
theorem fetchItems_preserves_other_cursor (s : AppState) (isReviewed : Bool)
    (cursor : Option String) (r : Except Unit QueryResponse) (q : Bool)
    (hne : q ≠ isReviewed) :
    queueCursor ((fetchItems s isReviewed cursor r).final) q
      = queueCursor s q := by
  cases r <;> cases isReviewed <;> cases q <;>
    simp_all [fetchItems, queueCursor]

/-- One post-startup UI event cannot resurrect an absent cursor. -/
theorem queueCursor_none_step (s : AppState) (q : Bool)
    (hq : queueCursor s q = none) (st : UiStep) :
    queueCursor (applyUiStep s st) q = none := by
  cases st with
  | mark itemId r =>
    have h := handleMarkReviewed_preserves_cursors s itemId r
    cases q <;> simp_all [applyUiStep, queueCursor]
  | del itemId r =>
    have h := handleDelete_preserves_cursors s itemId r
    cases q <;> simp_all [applyUiStep, queueCursor]
  | scroll tab past r =>
    rcases hreq : handleScrollRequest s tab past with _ | ⟨isRev, c⟩
    · simpa [applyUiStep, hreq] using hq
    · obtain ⟨-, hcur, -⟩ := handleScrollRequest_some s tab past isRev c hreq
      have hne : q ≠ isRev := by
        rintro rfl
        rw [hq] at hcur
        cases hcur
      simp only [applyUiStep, hreq]
      rw [fetchItems_preserves_other_cursor s isRev (some c) r q hne, hq]

/-- An absent cursor stays absent across any sequence of post-startup UI
events. -/
theorem queueCursor_none_runUiSteps (s : AppState) (q : Bool)
    (hq : queueCursor s q = none) (steps : List UiStep) :
    queueCursor (runUiSteps s steps) q = none := by
  induction steps generalizing s with
  | nil => exact hq
  | cons st rest ih =>
    simpa [runUiSteps] using ih (applyUiStep s st) (queueCursor_none_step s q hq st)

/-- C5: a scroll evaluation issues a fetch only when the loading flag is
false and the active queue's cursor is a present (non-empty) token; and
once a queue's cursor is absent, no sequence of further UI events (scroll
evaluations, mark-reviewed, delete) ever brings it back or makes the
scroll trigger fetch that queue again. -/
theorem scroll_trigger_gating :
    (∀ (s : AppState) (tab : Nat) (past : Bool) (q : Bool) (c : String),
      handleScrollRequest s tab past = some (q, c) →
      s.isLoading = false ∧ queueCursor s q = some c ∧ c ≠ "") ∧
    (∀ (s : AppState) (q : Bool), queueCursor s q = none →
      ∀ steps : List UiStep,
        queueCursor (runUiSteps s steps) q = none ∧
        ∀ (tab : Nat) (past : Bool) (c : String),
          handleScrollRequest (runUiSteps s steps) tab past ≠ some (q, c)) := by
  refine ⟨handleScrollRequest_some, ?_⟩
  intro s q hq steps
  have h1 := queueCursor_none_runUiSteps s q hq steps
  refine ⟨h1, ?_⟩
  intro tab past c h
  obtain ⟨-, hcur, -⟩ :=
    handleScrollRequest_some (runUiSteps s steps) tab past q c h
  rw [h1] at hcur
  cases hcur

/-- On `sampleState` the scroll trigger fetches the pending queue with its
stored cursor, and the reviewed queue's absent cursor stays absent across
a scroll-driven fetch. -/
theorem scroll_trigger_gating_witness :
    (handleScrollRequest sampleState 0 true = some (false, "c1") ∧
     queueCursor sampleState true = none) ∧
    ((sampleState.isLoading = false ∧
      queueCursor sampleState false = some "c1" ∧ ("c1" : String) ≠ "") ∧
     queueCursor (runUiSteps sampleState
        [UiStep.scroll 0 true (.ok ⟨[⟨"d", "td"⟩], none⟩)]) true = none) :=
  ⟨⟨by decide, by decide⟩,
   scroll_trigger_gating.1 sampleState 0 true false "c1" (by decide),
   (scroll_trigger_gating.2 sampleState true (by decide)
      [UiStep.scroll 0 true (.ok ⟨[⟨"d", "td"⟩], none⟩)]).1⟩

/-! ## Cross-queue id uniqueness -/

/-- The ids of the queue selected by `isReviewed`. -/
def queueIds (s : AppState) (isReviewed : Bool) : List String :=
  (queueItems s isReviewed).map Item.id

/-- A fetch response is fresh for the state it lands in: its ids are
pairwise distinct, absent from the other queue, and — when the fetch
continues an existing page (truthy cursor), so the old collection is
kept — absent from the fetched queue as well. -/
def fetchFresh (s : AppState) (isReviewed : Bool) (cursor : Option String)
    (r : QueryResponse) : Prop :=
  (r.items.map Item.id).Nodup ∧
  (∀ i ∈ r.items, i.id ∉ queueIds s (!isReviewed)) ∧
  (jsTruthy cursor = true → ∀ i ∈ r.items, i.id ∉ queueIds s isReviewed)

/-- Freshness of one operation: only successful fetches are
constrained. -/
def OpFresh (s : AppState) : Op → Prop
  | .fetch isReviewed cursor (.ok r) => fetchFresh s isReviewed cursor r
  | _ => True

/-- Freshness of a whole operation sequence, each response judged against
the state it actually lands in. -/
def OpsFresh : AppState → List Op → Prop
  | _, [] => True
  | s, op :: rest => OpFresh s op ∧ OpsFresh (applyOp s op) rest

instance fetchFreshDecidable (s : AppState) (isReviewed : Bool)
    (cursor : Option String) (r : QueryResponse) :
    Decidable (fetchFresh s isReviewed cursor r) := by
  unfold fetchFresh
  infer_instance

instance opFreshDecidable (s : AppState) (op : Op) :
    Decidable (OpFresh s op) := by
  cases op with
  | fetch isReviewed cursor result =>
    cases result with
    | error e => exact isTrue trivial
    | ok r => exact inferInstanceAs (Decidable (fetchFresh s isReviewed cursor r))
  | mark itemId result => exact isTrue trivial
  | del itemId result => exact isTrue trivial

instance opsFreshDecidable : (s : AppState) → (ops : List Op) →
    Decidable (OpsFresh s ops)
  | _, [] => isTrue trivial
  | s, op :: rest =>
    have : Decidable (OpsFresh (applyOp s op) rest) :=
      opsFreshDecidable (applyOp s op) rest
    inferInstanceAs (Decidable (OpFresh s op ∧ OpsFresh (applyOp s op) rest))

instance uniqueIdsDecidable (s : AppState) : Decidable (uniqueIds s) := by
  unfold uniqueIds
  infer_instance

/-- Unpacking cross-queue uniqueness. -/
theorem uniqueIds_iff (s : AppState) :
    uniqueIds s ↔ (pendingIds s).Nodup ∧ (reviewedIds s).Nodup ∧
      ∀ x ∈ pendingIds s, x ∉ reviewedIds s := by
  unfold uniqueIds
  rw [List.nodup_append]
  constructor
  · rintro ⟨h1, h2, h3⟩
    exact ⟨h1, h2, fun x hx hv => h3 hx hv⟩
  · rintro ⟨h1, h2, h3⟩
    exact ⟨h1, h2, fun x hx hv => h3 x hx hv⟩

/-- A failed fetch preserves cross-queue uniqueness (it changes no
collection). -/
theorem uniqueIds_fetch_error (s : AppState) (isReviewed : Bool)
    (cursor : Option String) (e : Unit) (hu : uniqueIds s) :
    uniqueIds ((fetchItems s isReviewed cursor (.error e)).final) := by
  simpa [uniqueIds, pendingIds, reviewedIds, fetchItems] using hu

/-- A successful fresh fetch preserves cross-queue uniqueness. -/
theorem uniqueIds_fetch_ok (s : AppState) (isReviewed : Bool)
    (cursor : Option String) (r : QueryResponse) (hu : uniqueIds s)
    (hf : fetchFresh s isReviewed cursor r) :
    uniqueIds ((fetchItems s isReviewed cursor (.ok r)).final) := by
  obtain ⟨hP, hV, hPV⟩ := (uniqueIds_iff s).mp hu
  obtain ⟨hR, hother, hown⟩ := hf
  rw [uniqueIds_iff]
  cases isReviewed with
  | false =>
    have hother' : ∀ i ∈ r.items, i.id ∉ reviewedIds s := hother
    have hpend : pendingIds ((fetchItems s false cursor (.ok r)).final)
        = if jsTruthy cursor
          then pendingIds s ++ r.items.map Item.id
          else r.items.map Item.id := by
      by_cases hb : jsTruthy cursor <;> simp [fetchItems, pendingIds, hb]
    have hrev : reviewedIds ((fetchItems s false cursor (.ok r)).final)
        = reviewedIds s := by
      simp [fetchItems, reviewedIds]
    rw [hpend, hrev]
    by_cases hb : jsTruthy cursor
    · have hown' : ∀ i ∈ r.items, i.id ∉ pendingIds s := hown hb
      rw [if_pos hb]
      refine ⟨List.nodup_append.mpr ⟨hP, hR, ?_⟩, hV, ?_⟩
      · intro a haP haR
        obtain ⟨i, hi, hieq⟩ := List.mem_map.mp haR
        exact (hown' i hi) (hieq ▸ haP)
      · intro x hx
        rcases List.mem_append.mp hx with hxP | hxR
        · exact hPV x hxP
        · obtain ⟨i, hi, hieq⟩ := List.mem_map.mp hxR
          exact hieq ▸ hother' i hi
    · rw [if_neg hb]
      refine ⟨hR, hV, ?_⟩
      intro x hx
      obtain ⟨i, hi, hieq⟩ := List.mem_map.mp hx
      exact hieq ▸ hother' i hi
  | true =>
    have hother' : ∀ i ∈ r.items, i.id ∉ pendingIds s := hother
    have hpend : pendingIds ((fetchItems s true cursor (.ok r)).final)
        = pendingIds s := by
      simp [fetchItems, pendingIds]
    have hrev : reviewedIds ((fetchItems s true cursor (.ok r)).final)
        = if jsTruthy cursor
          then reviewedIds s ++ r.items.map Item.id
          else r.items.map Item.id := by
      by_cases hb : jsTruthy cursor <;> simp [fetchItems, reviewedIds, hb]
    rw [hpend, hrev]
    by_cases hb : jsTruthy cursor
    · have hown' : ∀ i ∈ r.items, i.id ∉ reviewedIds s := hown hb
      rw [if_pos hb]
      refine ⟨hP, List.nodup_append.mpr ⟨hV, hR, ?_⟩, ?_⟩
      · intro a haV haR
        obtain ⟨i, hi, hieq⟩ := List.mem_map.mp haR
        exact (hown' i hi) (hieq ▸ haV)
      · intro x hxP hxmem
        rcases List.mem_append.mp hxmem with hxV | hxR
        · exact hPV x hxP hxV
        · obtain ⟨i, hi, hieq⟩ := List.mem_map.mp hxR
          exact (hother' i hi) (hieq ▸ hxP)
    · rw [if_neg hb]
      refine ⟨hP, hR, ?_⟩
      intro x hxP hxR
      obtain ⟨i, hi, hieq⟩ := List.mem_map.mp hxR
      exact (hother' i hi) (hieq ▸ hxP)

/-- `handleMarkReviewed` preserves cross-queue uniqueness. -/
theorem uniqueIds_mark (s : AppState) (itemId : String)
    (r : Except Unit Unit) (hu : uniqueIds s) :
    uniqueIds ((handleMarkReviewed s itemId r).2) := by
  cases r with
  | error e => exact hu
  | ok u =>
    obtain ⟨hP, hV, hPV⟩ := (uniqueIds_iff s).mp hu
    rw [uniqueIds_iff]
    have hsub : List.Sublist ((s.reviewQueueItems.filter
          (fun i => i.id != itemId)).map Item.id) (pendingIds s) :=
      (List.filter_sublist _).map _
    rcases hfind : s.reviewQueueItems.find? (fun i => i.id == itemId)
      with _ | item
    · have hpend : pendingIds ((handleMarkReviewed s itemId (.ok u)).2)
          = (s.reviewQueueItems.filter
              (fun i => i.id != itemId)).map Item.id := by
        simp [handleMarkReviewed, hfind, pendingIds]
      have hrev : reviewedIds ((handleMarkReviewed s itemId (.ok u)).2)
          = reviewedIds s := by
        simp [handleMarkReviewed, hfind, reviewedIds]
      rw [hpend, hrev]
      exact ⟨hsub.nodup hP, hV, fun x hx => hPV x (hsub.subset hx)⟩
    · have hid : item.id = itemId := by simpa using List.find?_some hfind
      have hitemmem : item ∈ s.reviewQueueItems :=
        List.mem_of_find?_eq_some hfind
      have hpend : pendingIds ((handleMarkReviewed s itemId (.ok u)).2)
          = (s.reviewQueueItems.filter
              (fun i => i.id != itemId)).map Item.id := by
        simp [handleMarkReviewed, hfind, pendingIds]
      have hrev : reviewedIds ((handleMarkReviewed s itemId (.ok u)).2)
          = item.id :: reviewedIds s := by
        simp [handleMarkReviewed, hfind, reviewedIds]
      rw [hpend, hrev]
      refine ⟨hsub.nodup hP, ?_, ?_⟩
      · exact List.nodup_cons.mpr
          ⟨hPV item.id (List.mem_map.mpr ⟨item, hitemmem, rfl⟩), hV⟩
      · intro x hx hmem
        obtain ⟨i, hiF, hieq⟩ := List.mem_map.mp hx
        have hiP : i ∈ s.reviewQueueItems := (List.mem_filter.mp hiF).1
        have hine : i.id ≠ itemId := by
          simpa using (List.mem_filter.mp hiF).2
        rcases List.mem_cons.mp hmem with heq | hxV
        · exact hine (hieq.trans (heq.trans hid))
        · exact hPV x (List.mem_map.mpr ⟨i, hiP, hieq⟩) hxV

/-- `handleDelete` preserves cross-queue uniqueness. -/
theorem uniqueIds_delete (s : AppState) (itemId : String)
    (r : Except Unit Unit) (hu : uniqueIds s) :
    uniqueIds ((handleDelete s itemId r).2) := by
  cases r with
  | error e => exact hu
  | ok u =>
    obtain ⟨hP, hV, hPV⟩ := (uniqueIds_iff s).mp hu
    rw [uniqueIds_iff]
    have hsub : List.Sublist ((s.reviewQueueItems.filter
          (fun i => i.id != itemId)).map Item.id) (pendingIds s) :=
      (List.filter_sublist _).map _
    have hpend : pendingIds ((handleDelete s itemId (.ok u)).2)
        = (s.reviewQueueItems.filter
            (fun i => i.id != itemId)).map Item.id := by
      simp [handleDelete, pendingIds]
    have hrev : reviewedIds ((handleDelete s itemId (.ok u)).2)
        = reviewedIds s := by
      simp [handleDelete, reviewedIds]
    rw [hpend, hrev]
    exact ⟨hsub.nodup hP, hV, fun x hx => hPV x (hsub.subset hx)⟩

/-- One fresh operation preserves cross-queue uniqueness. -/
theorem uniqueIds_step (s : AppState) (op : Op) (hu : uniqueIds s)
    (hf : OpFresh s op) : uniqueIds (applyOp s op) := by
  cases op with
  | fetch isReviewed cursor result =>
    cases result with
    | error e => exact uniqueIds_fetch_error s isReviewed cursor e hu
    | ok r => exact uniqueIds_fetch_ok s isReviewed cursor r hu hf
  | mark itemId result => exact uniqueIds_mark s itemId result hu
  | del itemId result => exact uniqueIds_delete s itemId result hu

/-- Fresh operation sequences preserve cross-queue uniqueness. -/
theorem uniqueIds_runOps (s : AppState) (hu : uniqueIds s) (ops : List Op)
    (hf : OpsFresh s ops) : uniqueIds (runOps s ops) := by
  induction ops generalizing s with
  | nil => exact hu
  | cons op rest ih =>
    obtain ⟨h1, h2⟩ := hf
    simpa [runOps] using ih (applyOp s op) (uniqueIds_step s op hu h1) h2

/-- Two first-page fetches whose responses repeat the id "a" put "a" into
both queues at once: reachable by store operations alone, so the
unconditional uniqueness claim fails on the code (no deduplication is
performed). -/
def dupOps : List Op :=
  [Op.fetch false none (.ok ⟨[⟨"a", "t"⟩], none⟩),
   Op.fetch true none (.ok ⟨[⟨"a", "t"⟩], none⟩)]

/-- After `dupOps` the id "a" is in both collections, refuting C4 as
stated. -/
theorem ids_not_unique_counterexample :
    "a" ∈ pendingIds (runOps initState dupOps) ∧
    "a" ∈ reviewedIds (runOps initState dupOps) ∧
    ¬ uniqueIds (runOps initState dupOps) := by
  refine ⟨by decide, by decide, by decide⟩

/-- C4 (amended): starting from the empty state, any interleaving of
store operations in which every successful fetch response is fresh — its
ids pairwise distinct, not in the other queue, and not in its own queue
either when the old collection is kept (truthy-cursor append) — keeps
every id unique across the union of both queues; in particular
`handleMarkReviewed` and `handleDelete` never break uniqueness. -/
theorem ids_unique_with_fresh_pages (ops : List Op)
    (hf : OpsFresh initState ops) : uniqueIds (runOps initState ops) :=
  uniqueIds_runOps initState (by decide) ops hf

/-- A fresh two-fetch-then-act trace keeps the queues duplicate-free. -/
theorem ids_unique_with_fresh_pages_witness :
    OpsFresh initState
      [Op.fetch false none (.ok ⟨[⟨"a", "ta"⟩], some "c1"⟩),
       Op.fetch true none (.ok ⟨[⟨"b", "tb"⟩], none⟩),
       Op.mark "a" (.ok ()), Op.del "z" (.ok ())] ∧
    uniqueIds (runOps initState
      [Op.fetch false none (.ok ⟨[⟨"a", "ta"⟩], some "c1"⟩),
       Op.fetch true none (.ok ⟨[⟨"b", "tb"⟩], none⟩),
       Op.mark "a" (.ok ()), Op.del "z" (.ok ())]) :=
  ⟨by decide,
   ids_unique_with_fresh_pages
     [Op.fetch false none (.ok ⟨[⟨"a", "ta"⟩], some "c1"⟩),
      Op.fetch true none (.ok ⟨[⟨"b", "tb"⟩], none⟩),
      Op.mark "a" (.ok ()), Op.del "z" (.ok ())] (by decide)⟩
